import Mathlib

/-!
Verification of the candidate-construction pipeline of `merge_candidates.py`
(repository RavinderRaturi/ocr).

The Python source is shallowly embedded: JSON-like dynamic values become the
inductive type `Value`, Python's implicit coercions (`int(...)`, truthiness,
`or`-chains, `str.strip`) become explicit functions, and code that can raise
an exception returns `Option`.  Machine reals never arise: the only divisions
in the source are `int(sum/len)` (exact truncating division on integers,
modelled with `Int.tdiv`) and the Devanagari ratio (modelled in `ℚ`).
-/

/-- Dynamic (JSON-like) Python values as consumed by `merge_candidates.py`:
`None`, booleans, integers, strings, dicts (association lists with distinct
keys) and lists. -/
inductive Value where
  | vnull : Value
  | vbool : Bool → Value
  | vint : Int → Value
  | vstr : String → Value
  | vdict : List (String × Value) → Value
  | vlist : List Value → Value

/-- Python truthiness: `None`, `False`, `0`, `""`, `{}`, `[]` are falsy. -/
def truthy : Value → Bool
  | .vnull => false
  | .vbool b => b
  | .vint n => n ≠ 0
  | .vstr s => s ≠ ""
  | .vdict l => !l.isEmpty
  | .vlist l => !l.isEmpty

/-- Python `a or b` (on the values used here). -/
def pyOr (a b : Value) : Value := if truthy a then a else b

/-- Python `d.get(k, default)` on a dict given as an association list. -/
def dGetD (fields : List (String × Value)) (k : String) (d : Value) : Value :=
  match fields.find? (fun p => p.1 = k) with
  | some p => p.2
  | none => d

/-- Python `k in d` on a dict. -/
def hasKey (fields : List (String × Value)) (k : String) : Bool :=
  (fields.find? (fun p => p.1 = k)).isSome

/-- ASCII fragment of Python whitespace (`str.strip`, regex `\s`). -/
def isSpaceChar (c : Char) : Bool :=
  c = ' ' || c = '\t' || c = '\n' || c = '\r' || c = '\x0b' || c = '\x0c'

/-- Strip whitespace from both ends of a character list. -/
def stripList (l : List Char) : List Char :=
  ((l.dropWhile isSpaceChar).reverse.dropWhile isSpaceChar).reverse

/-- Python `str.strip()`. -/
def pyStrip (s : String) : String := ⟨stripList s.data⟩

/-- Decimal value of a digit list (the list is checked elsewhere). -/
def digitsToNat (ds : List Char) : Nat :=
  ds.foldl (fun a c => a * 10 + (c.toNat - '0'.toNat)) 0

/-- Python `int(s)` on a string: optional surrounding whitespace, an optional
single sign, then a nonempty run of digits; anything else raises (`none`). -/
def parseIntStr (s : String) : Option Int :=
  let l := stripList s.data
  let signDigits : Bool × List Char :=
    match l with
    | '-' :: r => (true, r)
    | '+' :: r => (false, r)
    | r => (false, r)
  if signDigits.2 ≠ [] ∧ signDigits.2.all Char.isDigit then
    some (if signDigits.1 then -(digitsToNat signDigits.2 : Int) else (digitsToNat signDigits.2 : Int))
  else none

/-- Python `int(v)`: ints and bools convert, strings are parsed, everything
else (`None`, dicts, lists) raises. -/
def pyInt : Value → Option Int
  | .vint n => some n
  | .vbool b => some (if b then 1 else 0)
  | .vstr s => parseIntStr s
  | _ => none

/-- The test `str(conf).lstrip('-').isdigit()` from `normalize_row`, modelled
per value class: `str` of an int is a sign followed by digits, so the test
always succeeds on ints; on strings the test is literal; `str` of `True`,
`False`, dicts and lists always contains a non-digit. -/
def confDigitCheck : Value → Bool
  | .vint _ => true
  | .vstr s =>
    let s2 := s.data.dropWhile (· = '-')
    !s2.isEmpty && s2.all Char.isDigit
  | _ => false

/-- Lines 33-37 of `merge_candidates.py`: the confidence is kept only when
`conf is not None` and its string form is digits after stripping minus signs;
`int(conf)` failures are swallowed by the bare `except`. -/
def confVal : Value → Option Int
  | .vnull => none
  | v => if confDigitCheck v then pyInt v else none

/-- The value `.strip()` is called on in line 31: a truthy value must be a
string or `AttributeError` is raised; the `or`-chain ends in `""`. -/
def pyStripV : Value → Option String
  | .vstr s => some (pyStrip s)
  | _ => none

/-- A canonical Word Token, the dict built by `normalize_row`. -/
structure Token where
  page : Int
  text : String
  conf : Option Int
  left : Int
  top : Int
  width : Int
  height : Int
  block_num : Int
  par_num : Int
  line_num : Int
deriving Repr, DecidableEq

/-- Line 40 of the source: all four direct geometry keys present. -/
def hasAll4 (fields : List (String × Value)) : Bool :=
  hasKey fields "left" && hasKey fields "top" && hasKey fields "width" && hasKey fields "height"

/-- Lines 41-44: `int(obj.get(k) or 0)` for a direct geometry field. -/
def coord4 (fields : List (String × Value)) (k : String) : Option Int :=
  pyInt (pyOr (dGetD fields k .vnull) (.vint 0))

/-- Lines 48-51: `int(bbox.get(k1) or bbox.get(k2) or obj.get(k1, 0) or 0)`. -/
def coordB (bb fields : List (String × Value)) (k1 k2 : String) : Option Int :=
  pyInt (pyOr (pyOr (pyOr (dGetD bb k1 .vnull) (dGetD bb k2 .vnull)) (dGetD fields k1 (.vint 0))) (.vint 0))

/-- Lines 39-51 of the source: geometry resolution.  Either all four direct
fields exist, or the nested `bbox` (a dict, or absent/falsy giving `{}`) is
consulted with `{left,top,width,height}` / `{x,y,w,h}` naming and top-level
fall-backs. -/
def geom (fields : List (String × Value)) : Option (Int × Int × Int × Int) :=
  if hasAll4 fields then
    match coord4 fields "left", coord4 fields "top", coord4 fields "width", coord4 fields "height" with
    | some l, some t, some w, some h => some (l, t, w, h)
    | _, _, _, _ => none
  else
    match pyOr (dGetD fields "bbox" .vnull) (.vdict []) with
    | .vdict bb =>
      match coordB bb fields "left" "x", coordB bb fields "top" "y",
            coordB bb fields "width" "w", coordB bb fields "height" "h" with
      | some l, some t, some w, some h => some (l, t, w, h)
      | _, _, _, _ => none
    | _ => none

/-- Lines 24-58 of the source, `normalize_row`.  `none` models a raised
exception.  Calling `.get` on a non-dict raises, so non-mappings fail
immediately; within a mapping each `int(...)` and `.strip()` can still
raise on ill-typed field values. -/
def normalize_row (obj : Value) : Option Token :=
  match obj with
  | .vdict fields =>
    match pyInt (dGetD fields "page" (.vint 1)) with
    | none => none
    | some page =>
      match pyStripV (pyOr (pyOr (dGetD fields "text" .vnull) (dGetD fields "ocr_text" .vnull)) (.vstr "")) with
      | none => none
      | some text =>
        match geom fields with
        | none => none
        | some (l, t, w, h) =>
          match pyInt (pyOr (pyOr (dGetD fields "block_num" .vnull) (dGetD fields "block_id" .vnull)) (.vint 0)) with
          | none => none
          | some bn =>
            match pyInt (pyOr (dGetD fields "par_num" .vnull) (.vint 0)) with
            | none => none
            | some pn =>
              match pyInt (pyOr (dGetD fields "line_num" .vnull) (.vint 0)) with
              | none => none
              | some ln =>
                some { page := page, text := text,
                       conf := confVal (dGetD fields "conf" .vnull),
                       left := l, top := t, width := w, height := h,
                       block_num := bn, par_num := pn, line_num := ln }
  | _ => none

/-- The value is `None` or an integer (so Python `int(v or 0)` cannot raise). -/
def intish : Value → Bool
  | .vnull => true
  | .vint _ => true
  | _ => false

/-- The value is an integer (so Python `int(v)` cannot raise). -/
def intdef : Value → Bool
  | .vint _ => true
  | _ => false

/-- The value is `None` or a string (so the `or`-chain feeding `.strip()`
cannot produce a truthy non-string). -/
def strish : Value → Bool
  | .vnull => true
  | .vstr _ => true
  | _ => false

/-- A well-typed `bbox` field: absent/`None`, or a dict whose eight possible
coordinate entries are each absent, `None`, or an integer. -/
def boxWellTyped : Value → Bool
  | .vnull => true
  | .vdict bb =>
    intish (dGetD bb "left" .vnull) && intish (dGetD bb "x" .vnull) &&
    intish (dGetD bb "top" .vnull) && intish (dGetD bb "y" .vnull) &&
    intish (dGetD bb "width" .vnull) && intish (dGetD bb "w" .vnull) &&
    intish (dGetD bb "height" .vnull) && intish (dGetD bb "h" .vnull)
  | _ => false

/-- A record on which `normalize_row` provably cannot raise: `page` absent or
integer, text fields absent/`None`/string, geometry and layout fields
absent/`None`/integer, `bbox` well typed.  (`conf` is unconstrained: its
handler swallows all exceptions.) -/
def wellTypedRecord (fields : List (String × Value)) : Bool :=
  intdef (dGetD fields "page" (.vint 1)) &&
  strish (dGetD fields "text" .vnull) && strish (dGetD fields "ocr_text" .vnull) &&
  intish (dGetD fields "left" .vnull) && intish (dGetD fields "top" .vnull) &&
  intish (dGetD fields "width" .vnull) && intish (dGetD fields "height" .vnull) &&
  boxWellTyped (dGetD fields "bbox" .vnull) &&
  intish (dGetD fields "block_num" .vnull) && intish (dGetD fields "block_id" .vnull) &&
  intish (dGetD fields "par_num" .vnull) && intish (dGetD fields "line_num" .vnull)

/-- The integer carried by a `None`-or-int value, `None` giving 0. -/
def toIntD : Value → Int
  | .vint n => n
  | _ => 0

/-- Modelled from the amended claim: the first truthy (non-`None`, non-zero)
integer among the listed values, with 0 as final default.  This is the value
an `or`-chain of `None`-or-int values ending in `0` feeds to `int(...)`. -/
def firstTruthyInt : List Value → Int
  | [] => 0
  | .vint n :: rest => if n = 0 then firstTruthyInt rest else n
  | _ :: rest => firstTruthyInt rest

/-- The string selected by `(a or b or "")` when `a` and `b` are
`None`-or-string. -/
def strChoice (a b : Value) : String :=
  match a with
  | .vstr s => if s = "" then (match b with | .vstr s2 => s2 | _ => "") else s
  | _ => match b with | .vstr s2 => s2 | _ => ""

/-- The nested-`bbox` dict actually consulted on the nested path: the `bbox`
field if it is a truthy dict, otherwise the empty dict (`bbox or {}`). -/
def bbOf (fields : List (String × Value)) : List (String × Value) :=
  match pyOr (dGetD fields "bbox" .vnull) (.vdict []) with
  | .vdict l => l
  | _ => []

/-- The Token `normalize_row` produces on a well-typed record, written out
field by field (proved equal to `normalize_row` in
`normalize_row_wellTyped_eval`). -/
def mkTokenOf (fields : List (String × Value)) : Token :=
  { page := toIntD (dGetD fields "page" (.vint 1))
    text := pyStrip (strChoice (dGetD fields "text" .vnull) (dGetD fields "ocr_text" .vnull))
    conf := confVal (dGetD fields "conf" .vnull)
    left := if hasAll4 fields then toIntD (dGetD fields "left" .vnull)
            else firstTruthyInt [dGetD (bbOf fields) "left" .vnull, dGetD (bbOf fields) "x" .vnull,
                                 dGetD fields "left" (.vint 0)]
    top := if hasAll4 fields then toIntD (dGetD fields "top" .vnull)
           else firstTruthyInt [dGetD (bbOf fields) "top" .vnull, dGetD (bbOf fields) "y" .vnull,
                                dGetD fields "top" (.vint 0)]
    width := if hasAll4 fields then toIntD (dGetD fields "width" .vnull)
             else firstTruthyInt [dGetD (bbOf fields) "width" .vnull, dGetD (bbOf fields) "w" .vnull,
                                  dGetD fields "width" (.vint 0)]
    height := if hasAll4 fields then toIntD (dGetD fields "height" .vnull)
              else firstTruthyInt [dGetD (bbOf fields) "height" .vnull, dGetD (bbOf fields) "h" .vnull,
                                   dGetD fields "height" (.vint 0)]
    block_num := firstTruthyInt [dGetD fields "block_num" .vnull, dGetD fields "block_id" .vnull]
    par_num := firstTruthyInt [dGetD fields "par_num" .vnull]
    line_num := firstTruthyInt [dGetD fields "line_num" .vnull] }

/-- The entries of the dict `normalize_row` returns (the canonical Word
Token re-encoded as dynamic values). -/
def tvFields (t : Token) : List (String × Value) :=
  [("page", .vint t.page), ("text", .vstr t.text),
   ("conf", match t.conf with | none => .vnull | some n => .vint n),
   ("left", .vint t.left), ("top", .vint t.top),
   ("width", .vint t.width), ("height", .vint t.height),
   ("block_num", .vint t.block_num), ("par_num", .vint t.par_num),
   ("line_num", .vint t.line_num)]

/-- The dict `normalize_row` returns, re-encoded as a `Value` (fed back into
`normalize_row` for the idempotence property). -/
def Token.toValue (t : Token) : Value := .vdict (tvFields t)

/-- Line 12 of the source: the Devanagari code-point block. -/
def DEVANAGARI_RANGE : Nat × Nat := (0x0900, 0x097F)

/-- Lines 14-15 of the source: membership in the Devanagari block. -/
def is_devanagari_char (c : Char) : Bool :=
  DEVANAGARI_RANGE.1 ≤ c.toNat && c.toNat ≤ DEVANAGARI_RANGE.2

/-- Fragment of Python `str.isalpha` covering the characters this program
meets: ASCII letters plus the letter code points of the Devanagari block
(categories Lo/Lm); combining marks, Devanagari digits (U+0966-U+096F) and
punctuation within the block are not alphabetic. -/
def pyIsAlpha (c : Char) : Bool :=
  c.isAlpha || (0x904 ≤ c.toNat && c.toNat ≤ 0x939) || c.toNat = 0x93D || c.toNat = 0x950 ||
    (0x958 ≤ c.toNat && c.toNat ≤ 0x961) || (0x971 ≤ c.toNat && c.toNat ≤ 0x97F)

/-- Lines 17-22 of the source, `script_ratio`: count characters in the
Devanagari block (`dev`) and alphabetic characters (`total`) and return
`dev / total` (0 for the empty string or when there is no alphabetic
character).  Note `dev` counts all Devanagari code points, not only
alphabetic ones. -/
def script_ratio (text : String) : ℚ :=
  if text = "" then 0
  else
    let dev := text.data.countP is_devanagari_char
    let total := text.data.countP pyIsAlpha
    if total > 0 then (dev : ℚ) / (total : ℚ) else 0

/-- Lines 140-146 of the source, `guess_lang`. -/
def guess_lang (text : String) : String :=
  let r := script_ratio text
  if r > 3/10 then "hindi"
  else if r < 1/20 then "english"
  else "mixed"

/-- A Text Line as built by `group_words_to_lines` (both strategies emit
the same dict shape, lines 100 and 127). -/
structure Line where
  text : String
  left : Int
  top : Int
  right : Int
  bottom : Int
  conf : Option Int
  words : List Token
deriving Repr, DecidableEq

/-- Python stable `sorted(..., key=lambda w: w['left'])` (insertion sort is
stable, and any stable sort by a total preorder gives the same list). -/
def sortByLeft (ws : List Token) : List Token :=
  List.insertionSort (fun a b => a.left ≤ b.left) ws

def intMinD : List Int → Int
  | [] => 0
  | x :: xs => xs.foldl min x

def intMaxD : List Int → Int
  | [] => 0
  | x :: xs => xs.foldl max x

/-- Source `int(sum(confs)/len(confs)) if confs else None`: Python `int()` on
the exact quotient truncates toward zero, which is `Int.tdiv`. -/
def avgInts (confs : List Int) : Option Int :=
  if confs.isEmpty then none else some (Int.tdiv confs.sum confs.length)

/-- Lines 92-100 (and identically 119-127) of the source: build one Text
Line from a group of word tokens — sort by `left`, space-join the stripped
texts and strip, take the bounding-box union, and average the non-null
confidences. -/
def mkLine (ws : List Token) : Line :=
  let sorted := sortByLeft ws
  { text := pyStrip (String.intercalate " " (sorted.map (fun w => pyStrip w.text)))
    left := intMinD (sorted.map (fun w => w.left))
    top := intMinD (sorted.map (fun w => w.top))
    right := intMaxD (sorted.map (fun w => w.left + w.width))
    bottom := intMaxD (sorted.map (fun w => w.top + w.height))
    conf := avgInts (sorted.filterMap (fun w => w.conf))
    words := sorted }

/-- Line 87 of the source: the metadata grouping key. -/
def lineKey (w : Token) : Int × Int × Int := (w.block_num, w.par_num, w.line_num)

/-- Lexicographic order on grouping keys (Python tuple comparison). -/
def keyLE (a b : Int × Int × Int) : Prop :=
  a.1 < b.1 ∨ (a.1 = b.1 ∧ (a.2.1 < b.2.1 ∨ (a.2.1 = b.2.1 ∧ a.2.2 ≤ b.2.2)))

instance : DecidableRel keyLE := fun a b => by unfold keyLE; infer_instance

/-- Lines 84-101 of the source: metadata grouping.  `by_line.setdefault`
groups tokens by key preserving input order, so the group of key `k` is the
in-order filter of the page's tokens; keys are then visited in ascending
lexicographic order (the sorted deduplicated key list). -/
def metaLines (ws : List Token) : List Line :=
  (List.insertionSort keyLE (ws.map lineKey).dedup).map
    (fun k => mkLine (ws.filter (fun w => lineKey w = k)))

/-- Lines 71-78 of the source, `_median`, applied to the height list (which
never contains `None`, so the `is not None` filter is the identity); an
even-length list averages the two middle values in `ℚ`. -/
def pyMedian (arr : List Int) : Option ℚ :=
  let s := List.insertionSort (fun a b : Int => a ≤ b) arr
  if s.length = 0 then none
  else if s.length % 2 = 1 then some ((s.getD (s.length / 2) 0 : Int) : ℚ)
  else some ((((s.getD (s.length / 2 - 1) 0 : Int) : ℚ) + ((s.getD (s.length / 2) 0 : Int) : ℚ)) / 2)

/-- An open line-group of the geometric clustering loop (lines 106-117):
running average top plus the member tokens. -/
structure ClusterGroup where
  top : Int
  words : List Token

/-- Lines 107-117 of the source: place one token into the first group whose
running-average top is within `median_height * y_tol`, recomputing the
group's (truncated) average top, or open a new group at the end. -/
def placeWord (mh ytol : ℚ) : List ClusterGroup → Token → List ClusterGroup
  | [], w => [⟨w.top, [w]⟩]
  | g :: gs, w =>
    if (((w.top - g.top).natAbs : ℚ)) ≤ mh * ytol then
      let nws := g.words ++ [w]
      ⟨Int.tdiv (nws.map (fun x => x.top)).sum nws.length, nws⟩ :: gs
    else g :: placeWord mh ytol gs w

/-- Line 82 of the source: does any token carry a non-zero `line_num`? -/
def has_line_num (ws : List Token) : Bool := ws.any (fun w => w.line_num ≠ 0)

/-- Lines 103-128 of the source: geometric clustering fallback — sort by
top, compute the median height (zero heights replaced by 20, and a falsy
median replaced by 20), cluster, and build a line per group. -/
def geomLines (ws : List Token) (ytol : ℚ) : List Line :=
  let sorted := List.insertionSort (fun a b : Token => a.top ≤ b.top) ws
  let hs := sorted.map (fun w => if w.height = 0 then (20 : Int) else w.height)
  let mh : ℚ :=
    match pyMedian hs with
    | none => 20
    | some m => if m = 0 then 20 else m
  let groups := sorted.foldl (placeWord mh ytol) []
  groups.map (fun g => mkLine g.words)

/-- Lines 80-128 of the source, `group_words_to_lines` (default
`y_tol=0.5`). -/
def group_words_to_lines (ws : List Token) (ytol : ℚ) : List Line :=
  if has_line_num ws then metaLines ws else geomLines ws ytol

/-- The separator class `[\).\:-]` of `QUESTION_NUM_REGEX`. -/
def sepChars : List Char := [')', '.', ':', '-']

/-- Lines 130-138 of the source: match
`^\s*(?:Q(?:uestion)?\s*)?(\d{1,4})\s*[\).\:-]?\s*(.*)` and return
(question number, stripped remainder), or (`None`, the unchanged text).
The regex is deterministic here: the optional `Q`/`Question` group and the
greedy digit run never need backtracking (whitespace, `Q` and digits are
disjoint, and everything after the digits can match the empty string), and
`.` does not cross a newline. -/
def detect_question_number (t : String) : Option String × String :=
  let s0 := t.data.dropWhile isSpaceChar
  let s :=
    match s0 with
    | 'Q' :: r =>
      if r.take 7 = "uestion".data then (r.drop 7).dropWhile isSpaceChar
      else r.dropWhile isSpaceChar
    | _ => s0
  let ds := (s.takeWhile Char.isDigit).take 4
  if ds.isEmpty then (none, t)
  else
    let rest1 := (s.drop ds.length).dropWhile isSpaceChar
    let rest2 :=
      match rest1 with
      | c :: r => if c ∈ sepChars then r else rest1
      | [] => []
    let rest3 := rest2.dropWhile isSpaceChar
    (some ⟨ds⟩, pyStrip ⟨rest3.takeWhile (fun c => c ≠ '\n')⟩)

/-- Success of the option-marker regexes of lines 189 and 191
(`^\s*[A-D]\s*[\.\)]`, the trailing `\s*` of line 189 cannot affect
success). -/
def isOptionMarker (t : String) : Bool :=
  match t.data.dropWhile isSpaceChar with
  | c :: r =>
    ('A' ≤ c && c ≤ 'D') &&
      (match r.dropWhile isSpaceChar with
       | d :: _ => d = '.' || d = ')'
       | [] => false)
  | [] => false

/-- Lines 148-149 of the source, `_bbox`. -/
structure BBox where
  left : Int
  top : Int
  width : Int
  height : Int
deriving Repr, DecidableEq

def lineBBox (l : Line) : BBox := ⟨l.left, l.top, l.right - l.left, l.bottom - l.top⟩

/-- One language-tagged content unit of a Candidate (lines 166/177/187). -/
structure Block where
  lang : String
  text : String
  bbox : BBox
  conf : Option Int
deriving Repr, DecidableEq

/-- One segmented Candidate (line 180/197; the page number is attached
later by the orchestrator and is not part of segmentation). -/
structure Candidate where
  qnum : Option String
  blocks : List Block
  conf_avg : Option Int
deriving Repr, DecidableEq

/-- The Block built from a full line (lines 177, 187, 192). -/
def mkBlockOf (l : Line) : Block := ⟨guess_lang l.text, l.text, lineBBox l, l.conf⟩

/-- Lines 151-155 of the source, `_avg_conf`. -/
def avg_conf_blocks (bs : List Block) : Option Int := avgInts (bs.filterMap (fun b => b.conf))

/-- Lines 168-179 of the source: the inner loop of the numbered branch.
Here `cur` is the most recently consumed line; stop (without consuming) before a
line that matches a question number or whose gap above exceeds
`line_height * 6` where a zero `line_height` is replaced by 1 (`or 1`). -/
def collectNumbered (cur : Line) : List Line → List Block × List Line
  | [] => ([], [])
  | nxt :: rest =>
    if (detect_question_number nxt.text).1.isSome then ([], nxt :: rest)
    else
      if nxt.top - cur.bottom >
          (if cur.bottom - cur.top = 0 then 1 else cur.bottom - cur.top) * 6 then
        ([], nxt :: rest)
      else
        (mkBlockOf nxt :: (collectNumbered nxt rest).1, (collectNumbered nxt rest).2)

/-- Lines 190-193 of the source: after an option marker, keep consuming
lines while fewer than 8 lines total have been taken from the chunk start
and the line is not another option marker.  The counter is the number of
lines consumed so far in this chunk (`j - i`). -/
def optionTail : List Line → Nat → List Block × Nat
  | [], k => ([], k)
  | l :: r, k =>
    if k < 8 && !isOptionMarker l.text then
      (mkBlockOf l :: (optionTail r (k + 1)).1, (optionTail r (k + 1)).2)
    else ([], k)

/-- Lines 184-195 of the source: accumulate up to 6 lines for an unnumbered
chunk; on meeting an option-marker line switch to the 8-line option tail
and then stop. -/
def collectUnnum : List Line → Nat → List Block × Nat
  | [], k => ([], k)
  | l :: r, k =>
    if k < 6 then
      if isOptionMarker l.text then
        (mkBlockOf l :: (optionTail r (k + 1)).1, (optionTail r (k + 1)).2)
      else
        (mkBlockOf l :: (collectUnnum r (k + 1)).1, (collectUnnum r (k + 1)).2)
    else ([], k)

/-- Source `" ".join(b['text'] for b in blocks)` (line 196). -/
def joinBlocks (bs : List Block) : String :=
  String.intercalate " " (bs.map (fun b => b.text))

/-- Lines 157-201 of the source, the `while i < n` loop of
`group_lines_to_candidates`, written with explicit fuel so that the
function is structurally recursive; every iteration advances the scan
position by at least one line, so fuel `n` suffices (the invariant is
`length ≤ fuel`, see `segGo_congr`). -/
def segGo : Nat → List Line → List Candidate
  | 0, _ => []
  | _ + 1, [] => []
  | fuel + 1, line :: rest =>
    match detect_question_number line.text with
    | (some q, restText) =>
      let b0 : Block := ⟨guess_lang line.text, if restText = "" then line.text else restText,
        lineBBox line, line.conf⟩
      let bs := b0 :: (collectNumbered line rest).1
      ⟨some q, bs, avg_conf_blocks bs⟩ :: segGo fuel (collectNumbered line rest).2
    | (none, _) =>
      let bs := (collectUnnum (line :: rest) 0).1
      if (pyStrip (joinBlocks bs)).length > 10 then
        ⟨none, bs, avg_conf_blocks bs⟩ ::
          segGo fuel ((line :: rest).drop (collectUnnum (line :: rest) 0).2)
      else segGo fuel rest

/-- Lines 157-201 of the source, `group_lines_to_candidates`. -/
def group_lines_to_candidates (lines : List Line) : List Candidate :=
  segGo lines.length lines

/-- Modelled from the amended claim C7: the chain of subsequent lines a
numbered Candidate absorbs — stop before the first line that itself matches
a question number, or whose gap above the previously consumed line's bottom
strictly exceeds 6 times that line's height, where a zero height is treated
as 1 and a negative height is used as-is. -/
def chainPrefix (cur : Line) : List Line → List Line
  | [] => []
  | nxt :: rest =>
    if (detect_question_number nxt.text).1.isSome then []
    else
      if nxt.top - cur.bottom >
          (if cur.bottom - cur.top = 0 then 1 else cur.bottom - cur.top) * 6 then []
      else nxt :: chainPrefix nxt rest

/-- Lines used by the C7 witness: a numbered line followed by a nearby
continuation line. -/
def wline71 : Line := ⟨"1) hello", 0, 0, 40, 10, some 90, []⟩

def wline72 : Line := ⟨"world", 0, 12, 30, 22, some 80, []⟩

/-! ## Theorems -/

example : normalize_row (.vdict [("page", .vstr "abc")]) = none := by decide

example : normalize_row (.vdict [("text", .vstr " hi "), ("conf", .vstr "93"),
    ("bbox", .vdict [("x", .vint 4), ("y", .vint 5)])]) =
    some ⟨1, "hi", some 93, 4, 5, 0, 0, 0, 0, 0⟩ := by decide

example : normalize_row (.vdict [("left", .vint 7), ("bbox", .vdict [("left", .vint 0)])]) =
    some ⟨1, "", none, 7, 0, 0, 0, 0, 0, 0⟩ := by decide

theorem intish_cases {v : Value} (h : intish v = true) : v = .vnull ∨ ∃ n, v = .vint n := by
  cases v <;> simp_all [intish]

theorem intdef_cases {v : Value} (h : intdef v = true) : ∃ n, v = .vint n := by
  cases v <;> simp_all [intdef]

theorem strish_cases {v : Value} (h : strish v = true) : v = .vnull ∨ ∃ s, v = .vstr s := by
  cases v <;> simp_all [strish]

theorem pyInt_intdef {v : Value} (h : intdef v = true) : pyInt v = some (toIntD v) := by
  obtain ⟨n, rfl⟩ := intdef_cases h; rfl

theorem pyInt_or0 {v : Value} (h : intish v = true) :
    pyInt (pyOr v (.vint 0)) = some (toIntD v) := by
  rcases intish_cases h with rfl | ⟨n, rfl⟩
  · rfl
  · by_cases hn : n = 0 <;> simp [pyOr, truthy, hn, pyInt, toIntD]

theorem pyInt_chain1 {a : Value} (ha : intish a = true) :
    pyInt (pyOr a (.vint 0)) = some (firstTruthyInt [a]) := by
  rcases intish_cases ha with rfl | ⟨n, rfl⟩
  · rfl
  · by_cases hn : n = 0 <;> simp [pyOr, truthy, hn, pyInt, firstTruthyInt]

theorem pyInt_chain2 {a b : Value} (ha : intish a = true) (hb : intish b = true) :
    pyInt (pyOr (pyOr a b) (.vint 0)) = some (firstTruthyInt [a, b]) := by
  rcases intish_cases ha with rfl | ⟨n1, rfl⟩ <;>
    rcases intish_cases hb with rfl | ⟨n2, rfl⟩ <;>
    simp [pyOr, truthy, pyInt, firstTruthyInt] <;>
    split_ifs <;> simp_all [pyInt, firstTruthyInt]

theorem pyInt_chain3 {a b c : Value} (ha : intish a = true) (hb : intish b = true)
    (hc : intish c = true) :
    pyInt (pyOr (pyOr (pyOr a b) c) (.vint 0)) = some (firstTruthyInt [a, b, c]) := by
  rcases intish_cases ha with rfl | ⟨n1, rfl⟩ <;>
    rcases intish_cases hb with rfl | ⟨n2, rfl⟩ <;>
    rcases intish_cases hc with rfl | ⟨n3, rfl⟩ <;>
    simp [pyOr, truthy, pyInt, firstTruthyInt] <;>
    split_ifs <;> simp_all [pyInt, firstTruthyInt]

theorem pyStripV_strish {a b : Value} (ha : strish a = true) (hb : strish b = true) :
    pyStripV (pyOr (pyOr a b) (.vstr "")) = some (pyStrip (strChoice a b)) := by
  rcases strish_cases ha with rfl | ⟨s, rfl⟩ <;>
    rcases strish_cases hb with rfl | ⟨s2, rfl⟩ <;>
    simp [pyOr, truthy, pyStripV, strChoice] <;>
    split_ifs <;> simp_all [pyStripV, strChoice]

theorem intish_dGetD_int0 {fields : List (String × Value)} {k : String}
    (h : intish (dGetD fields k .vnull) = true) : intish (dGetD fields k (.vint 0)) = true := by
  unfold dGetD at h ⊢
  rcases hf : fields.find? (fun p => p.1 = k) with _ | p
  · simp [hf, intish]
  · rw [hf] at h ⊢; exact h

theorem bboxMatch {fields : List (String × Value)}
    (h : boxWellTyped (dGetD fields "bbox" .vnull) = true) :
    pyOr (dGetD fields "bbox" .vnull) (.vdict []) = .vdict (bbOf fields) := by
  unfold bbOf
  rcases hv : dGetD fields "bbox" .vnull with _ | b | n | s | bb | l <;>
    rw [hv] at h <;> simp [boxWellTyped] at h
  · rfl
  · by_cases hbb : bb.isEmpty <;> simp [pyOr, truthy, hbb]

theorem bbOf_wellTyped {fields : List (String × Value)}
    (h : boxWellTyped (dGetD fields "bbox" .vnull) = true) :
    boxWellTyped (.vdict (bbOf fields)) = true := by
  unfold bbOf
  rcases hv : dGetD fields "bbox" .vnull with _ | b | n | s | bb | l <;>
    rw [hv] at h <;> simp [boxWellTyped] at h ⊢
  · simp [pyOr, truthy, dGetD, intish]
  · by_cases hbb : bb.isEmpty
    · simp [pyOr, truthy, hbb, dGetD, intish]
    · simpa [pyOr, truthy, hbb, boxWellTyped] using h

theorem coordB_eval {bb fields : List (String × Value)} {k1 k2 : String}
    (h1 : intish (dGetD bb k1 .vnull) = true) (h2 : intish (dGetD bb k2 .vnull) = true)
    (h3 : intish (dGetD fields k1 (.vint 0)) = true) :
    coordB bb fields k1 k2 =
      some (firstTruthyInt [dGetD bb k1 .vnull, dGetD bb k2 .vnull, dGetD fields k1 (.vint 0)]) :=
  pyInt_chain3 h1 h2 h3

theorem geom_wellTyped {fields : List (String × Value)} (h : wellTypedRecord fields = true) :
    geom fields = some ((mkTokenOf fields).left, (mkTokenOf fields).top,
      (mkTokenOf fields).width, (mkTokenOf fields).height) := by
  have h' := h
  simp only [wellTypedRecord, Bool.and_eq_true] at h'
  obtain ⟨⟨⟨⟨⟨⟨⟨⟨⟨⟨⟨hpage, htext⟩, hocr⟩, hleft⟩, htop⟩, hwidth⟩, hheight⟩, hbox⟩, hbn⟩, hbid⟩, hpn⟩, hln⟩ := h'
  by_cases h4 : hasAll4 fields = true
  · simp only [geom, h4, if_true, coord4, pyInt_or0 hleft, pyInt_or0 htop,
      pyInt_or0 hwidth, pyInt_or0 hheight, mkTokenOf]
  · have hb := bbOf_wellTyped hbox
    simp only [boxWellTyped, Bool.and_eq_true] at hb
    obtain ⟨⟨⟨⟨⟨⟨⟨hb1, hb2⟩, hb3⟩, hb4⟩, hb5⟩, hb6⟩, hb7⟩, hb8⟩ := hb
    have h4' : hasAll4 fields = false := by
      cases hh : hasAll4 fields
      · rfl
      · exact absurd hh h4
    have e1 := coordB_eval hb1 hb2 (intish_dGetD_int0 hleft)
    have e2 := coordB_eval hb3 hb4 (intish_dGetD_int0 htop)
    have e3 := coordB_eval hb5 hb6 (intish_dGetD_int0 hwidth)
    have e4 := coordB_eval hb7 hb8 (intish_dGetD_int0 hheight)
    simp only [geom, h4', Bool.false_eq_true, if_false, bboxMatch hbox, e1, e2, e3, e4,
      mkTokenOf]

theorem normalize_row_wellTyped_eval {fields : List (String × Value)}
    (h : wellTypedRecord fields = true) :
    normalize_row (.vdict fields) = some (mkTokenOf fields) := by
  have h' := h
  simp only [wellTypedRecord, Bool.and_eq_true] at h'
  obtain ⟨⟨⟨⟨⟨⟨⟨⟨⟨⟨⟨hpage, htext⟩, hocr⟩, hleft⟩, htop⟩, hwidth⟩, hheight⟩, hbox⟩, hbn⟩, hbid⟩, hpn⟩, hln⟩ := h'
  simp only [normalize_row, pyInt_intdef hpage, pyStripV_strish htext hocr, geom_wellTyped h,
    pyInt_chain2 hbn hbid, pyInt_chain1 hpn, pyInt_chain1 hln]
  rfl

/-- Claim C1 (counterexample): `normalize_row` is not total on arbitrary
mappings.  The mapping `{"page": "abc"}` is a dict, yet `int("abc")` raises
`ValueError`, so normalization fails. -/
theorem normalize_row_raises_on_bad_page :
    normalize_row (.vdict [("page", .vstr "abc")]) = none := by decide

/-- Claim C1 (amended): `normalize_row` never raises on a mapping whose
fields are well typed — `page` absent or an integer; `text`/`ocr_text`
absent, null or a string; geometry and layout fields absent, null or
integers; `bbox` absent, null or a mapping with null-or-integer
coordinates — and a structurally invalid record (not a mapping) always
fails.  Ill-typed field values (such as a non-numeric string under `page`)
may raise, contrary to the original claim. -/
theorem normalize_row_total_on_wellTyped :
    (∀ fields : List (String × Value), wellTypedRecord fields = true →
      (normalize_row (.vdict fields)).isSome = true) ∧
    (∀ v : Value, (∀ fs, v ≠ .vdict fs) → normalize_row v = none) := by
  constructor
  · intro fields h
    rw [normalize_row_wellTyped_eval h]
    rfl
  · intro v hv
    cases v <;> first | rfl | exact absurd rfl (hv _)

/-- Witness for C1: a concrete well-typed record normalizes successfully,
and a concrete non-mapping fails. -/
theorem normalize_row_total_witness :
    (normalize_row (.vdict [("page", .vint 2), ("text", .vstr " hi "), ("bbox", .vnull)])).isSome
      = true ∧
    normalize_row (.vint 3) = none :=
  ⟨normalize_row_total_on_wellTyped.1 _ (by decide),
   normalize_row_total_on_wellTyped.2 _ (fun _ h => Value.noConfusion h)⟩

/-- Claim C2 (counterexample): an explicit value 0 in the nested box does
not yield 0 — it is falsy, so the top-level `left` is consulted even though
the sub-object is present.  On `{"left": 7, "bbox": {"left": 0}}` the
resolved left is 7, not 0. -/
theorem bbox_zero_falls_through_cex :
    (normalize_row (.vdict [("left", .vint 7), ("bbox", .vdict [("left", .vint 0)])])).map
        Token.left = some 7 ∧
    (normalize_row (.vdict [("left", .vint 7), ("bbox", .vdict [("left", .vint 0)])])).map
        Token.left ≠ some 0 := by decide

/-- Claim C2 (amended): on a well-typed record, (a) if all four of `left`,
`top`, `width`, `height` are present, each is used with null coerced to 0;
(b) otherwise each coordinate is the first truthy (non-null, non-zero) value
among the nested sub-object's primary key, its `{x,y,w,h}` alias, and the
top-level field of the same name, with 0 as final default — so a falsy
(zero or null) nested value falls through to the top-level field rather
than shadowing it. -/
theorem bbox_resolution_order :
    ∀ (fields : List (String × Value)) (t : Token), wellTypedRecord fields = true →
      normalize_row (.vdict fields) = some t →
      (hasAll4 fields = true →
        t.left = toIntD (dGetD fields "left" .vnull) ∧
        t.top = toIntD (dGetD fields "top" .vnull) ∧
        t.width = toIntD (dGetD fields "width" .vnull) ∧
        t.height = toIntD (dGetD fields "height" .vnull)) ∧
      (hasAll4 fields = false →
        t.left = firstTruthyInt [dGetD (bbOf fields) "left" .vnull,
          dGetD (bbOf fields) "x" .vnull, dGetD fields "left" (.vint 0)] ∧
        t.top = firstTruthyInt [dGetD (bbOf fields) "top" .vnull,
          dGetD (bbOf fields) "y" .vnull, dGetD fields "top" (.vint 0)] ∧
        t.width = firstTruthyInt [dGetD (bbOf fields) "width" .vnull,
          dGetD (bbOf fields) "w" .vnull, dGetD fields "width" (.vint 0)] ∧
        t.height = firstTruthyInt [dGetD (bbOf fields) "height" .vnull,
          dGetD (bbOf fields) "h" .vnull, dGetD fields "height" (.vint 0)]) := by
  intro fields t hw h
  rw [normalize_row_wellTyped_eval hw] at h
  have ht : mkTokenOf fields = t := by injection h
  subst ht
  constructor <;> intro h4 <;> simp [mkTokenOf, h4]

/-- Witness for C2: both branches of the resolution order at concrete
records — a record with all four direct fields, and a record with only a
nested box whose `x` alias supplies the left coordinate. -/
theorem bbox_resolution_witness :
    (mkTokenOf [("left", .vint 3), ("top", .vint 4), ("width", .vint 5), ("height", .vint 6)]).left
        = toIntD (dGetD [("left", .vint 3), ("top", .vint 4), ("width", .vint 5), ("height", .vint 6)] "left" .vnull) ∧
    (mkTokenOf [("bbox", .vdict [("x", .vint 9)])]).left
        = firstTruthyInt [dGetD (bbOf [("bbox", .vdict [("x", .vint 9)])]) "left" .vnull,
            dGetD (bbOf [("bbox", .vdict [("x", .vint 9)])]) "x" .vnull,
            dGetD [("bbox", .vdict [("x", .vint 9)])] "left" (.vint 0)] :=
  ⟨(((bbox_resolution_order [("left", .vint 3), ("top", .vint 4), ("width", .vint 5), ("height", .vint 6)]
      (mkTokenOf [("left", .vint 3), ("top", .vint 4), ("width", .vint 5), ("height", .vint 6)])
      (by decide) (normalize_row_wellTyped_eval (by decide))).1 (by decide)).1),
   (((bbox_resolution_order [("bbox", .vdict [("x", .vint 9)])]
      (mkTokenOf [("bbox", .vdict [("x", .vint 9)])])
      (by decide) (normalize_row_wellTyped_eval (by decide))).2 (by decide)).1)⟩

theorem dropWhile_head_false {α : Type} {p : α → Bool} {l t : List α} {a : α}
    (h : l.dropWhile p = a :: t) : p a = false := by
  induction l with
  | nil => simp at h
  | cons x xs ih =>
    by_cases hx : p x = true
    · rw [List.dropWhile_cons, if_pos hx] at h
      exact ih h
    · rw [List.dropWhile_cons, if_neg hx] at h
      injection h with h1 h2
      subst h1
      simpa using hx

theorem dropWhile_eq_self_of_head {α : Type} {p : α → Bool} {a : α} {t : List α}
    (h : p a = false) : (a :: t).dropWhile p = a :: t := by
  rw [List.dropWhile_cons, if_neg (by simp [h])]

theorem dropWhile_idem {α : Type} (p : α → Bool) (l : List α) :
    (l.dropWhile p).dropWhile p = l.dropWhile p := by
  rcases hd : l.dropWhile p with _ | ⟨a, t⟩
  · rfl
  · exact dropWhile_eq_self_of_head (dropWhile_head_false hd)

theorem stripList_idem (l : List Char) : stripList (stripList l) = stripList l := by
  have h1 : (((l.dropWhile isSpaceChar).reverse.dropWhile isSpaceChar).reverse).dropWhile
      isSpaceChar = ((l.dropWhile isSpaceChar).reverse.dropWhile isSpaceChar).reverse := by
    rcases hBr : ((l.dropWhile isSpaceChar).reverse.dropWhile isSpaceChar).reverse
        with _ | ⟨c, r⟩
    · rfl
    · obtain ⟨s, hs⟩ :
          (l.dropWhile isSpaceChar).reverse.dropWhile isSpaceChar
            <:+ (l.dropWhile isSpaceChar).reverse :=
        List.dropWhile_suffix _
      have hA : l.dropWhile isSpaceChar
          = ((l.dropWhile isSpaceChar).reverse.dropWhile isSpaceChar).reverse ++ s.reverse := by
        have h2 := congrArg List.reverse hs
        simpa [List.reverse_append] using h2.symm
      rw [hBr, List.cons_append] at hA
      exact dropWhile_eq_self_of_head (dropWhile_head_false hA)
  unfold stripList
  rw [h1, List.reverse_reverse, dropWhile_idem]

theorem pyStrip_idem (s : String) : pyStrip (pyStrip s) = pyStrip s := by
  unfold pyStrip
  exact congrArg String.mk (stripList_idem s.data)

theorem pyStripV_stripped {v : Value} {s : String} (h : pyStripV v = some s) :
    pyStrip s = s := by
  cases v <;> simp [pyStripV] at h
  rw [← h]
  exact pyStrip_idem _

theorem normalize_row_text_stripped {obj : Value} {t : Token}
    (h : normalize_row obj = some t) : pyStrip t.text = t.text := by
  unfold normalize_row at h
  rcases obj with _ | b | n | s | fields | l <;> try simp at h
  rcases h1 : pyInt (dGetD fields "page" (.vint 1)) with _ | page <;> rw [h1] at h <;>
    try simp at h
  rcases h2 : pyStripV (pyOr (pyOr (dGetD fields "text" .vnull)
      (dGetD fields "ocr_text" .vnull)) (.vstr "")) with _ | text <;> rw [h2] at h <;>
    try simp at h
  rcases h3 : geom fields with _ | ⟨⟨L, T, W, H⟩⟩ <;> rw [h3] at h <;> try simp at h
  rcases h4 : pyInt (pyOr (pyOr (dGetD fields "block_num" .vnull)
      (dGetD fields "block_id" .vnull)) (.vint 0)) with _ | bn <;> rw [h4] at h <;>
    try simp at h
  rcases h5 : pyInt (pyOr (dGetD fields "par_num" .vnull) (.vint 0)) with _ | pn <;>
    rw [h5] at h <;> try simp at h
  rcases h6 : pyInt (pyOr (dGetD fields "line_num" .vnull) (.vint 0)) with _ | ln <;>
    rw [h6] at h <;> try simp at h
  have ht : t.text = text := by rw [← h]
  rw [ht]
  exact pyStripV_stripped h2

theorem tv_wellTyped (t : Token) : wellTypedRecord (tvFields t) = true := rfl

theorem firstTruthyInt_int (n : Int) : firstTruthyInt [.vint n] = n := by
  by_cases h : n = 0 <;> simp [firstTruthyInt, h]

theorem firstTruthyInt_int_null (n : Int) : firstTruthyInt [.vint n, .vnull] = n := by
  by_cases h : n = 0 <;> simp [firstTruthyInt, h]

theorem strChoice_null (s : String) : pyStrip (strChoice (.vstr s) .vnull) = pyStrip s := by
  by_cases h : s = "" <;> simp [strChoice, h]

/-- Claim C8 (confirmed): normalization is idempotent — re-normalizing the
dict produced by `normalize_row` yields the same Word Token, field by
field. -/
theorem normalize_row_idempotent :
    ∀ (obj : Value) (t : Token), normalize_row obj = some t →
      normalize_row (Token.toValue t) = some t := by
  intro obj t h
  have htext := normalize_row_text_stripped h
  have e : normalize_row (Token.toValue t) = some (mkTokenOf (tvFields t)) :=
    normalize_row_wellTyped_eval (tv_wellTyped t)
  rw [e]
  congr 1
  obtain ⟨p, tx, cf, L, T, W, H, B, P, LN⟩ := t
  cases cf with
  | none =>
    rw [show mkTokenOf (tvFields (Token.mk p tx none L T W H B P LN)) =
        Token.mk p (pyStrip (strChoice (.vstr tx) .vnull)) none L T W H
          (firstTruthyInt [.vint B, .vnull]) (firstTruthyInt [.vint P])
          (firstTruthyInt [.vint LN]) from rfl]
    congr 1
    · exact (strChoice_null tx).trans htext
    · exact firstTruthyInt_int_null B
    · exact firstTruthyInt_int P
    · exact firstTruthyInt_int LN
  | some n =>
    rw [show mkTokenOf (tvFields (Token.mk p tx (some n) L T W H B P LN)) =
        Token.mk p (pyStrip (strChoice (.vstr tx) .vnull)) (some n) L T W H
          (firstTruthyInt [.vint B, .vnull]) (firstTruthyInt [.vint P])
          (firstTruthyInt [.vint LN]) from rfl]
    congr 1
    · exact (strChoice_null tx).trans htext
    · exact firstTruthyInt_int_null B
    · exact firstTruthyInt_int P
    · exact firstTruthyInt_int LN

/-- Witness for C8: a concrete record normalizes to a token, and
re-normalizing that token reproduces it. -/
theorem normalize_row_idempotent_witness :
    normalize_row (.vdict [("text", .vstr " hi ")]) = some ⟨1, "hi", none, 0, 0, 0, 0, 0, 0, 0⟩ ∧
    normalize_row (Token.toValue ⟨1, "hi", none, 0, 0, 0, 0, 0, 0, 0⟩) =
      some ⟨1, "hi", none, 0, 0, 0, 0, 0, 0, 0⟩ :=
  ⟨by decide, normalize_row_idempotent (.vdict [("text", .vstr " hi ")])
    ⟨1, "hi", none, 0, 0, 0, 0, 0, 0, 0⟩ (by decide)⟩

/-- Claim C3 (counterexample): the numerator of the script ratio counts all
Devanagari code points, not only alphabetic ones.  On "a०" (Latin letter
plus Devanagari digit zero, which is not alphabetic) the code yields 1
while the claimed value — Devanagari-and-alphabetic over alphabetic — is
0; on "aa०००" the code yields 3/2, exceeding 1. -/
theorem script_ratio_counts_nonalpha_cex :
    script_ratio "a०" = 1 ∧
    (((("a०" : String).data.countP (fun c => pyIsAlpha c && is_devanagari_char c)) : ℚ) /
      ((("a०" : String).data.countP pyIsAlpha) : ℚ)) = 0 ∧
    script_ratio "aa०००" = 3 / 2 := by
  refine ⟨?_, ?_, ?_⟩
  · simp only [script_ratio]
    rw [if_neg (show ¬("a०" : String) = "" by decide),
        show ("a०" : String).data.countP is_devanagari_char = 1 by decide,
        show ("a०" : String).data.countP pyIsAlpha = 1 by decide]
    norm_num
  · rw [show ("a०" : String).data.countP (fun c => pyIsAlpha c && is_devanagari_char c) = 0
        by decide,
        show ("a०" : String).data.countP pyIsAlpha = 1 by decide]
    norm_num
  · simp only [script_ratio]
    rw [if_neg (show ¬("aa०००" : String) = "" by decide),
        show ("aa०००" : String).data.countP is_devanagari_char = 3 by decide,
        show ("aa०००" : String).data.countP pyIsAlpha = 2 by decide]
    norm_num

/-- Claim C3 (amended): for every string the script ratio equals the number
of characters in the Devanagari block — alphabetic or not — divided by the
number of alphabetic characters, and 0 when the string has no alphabetic
character; consequently it can exceed 1 when non-alphabetic Devanagari code
points (such as Devanagari digits) occur. -/
theorem script_ratio_characterization :
    ∀ s : String,
      script_ratio s =
        if s.data.countP pyIsAlpha = 0 then 0
        else (s.data.countP is_devanagari_char : ℚ) / (s.data.countP pyIsAlpha : ℚ) := by
  intro s
  simp only [script_ratio]
  by_cases h0 : s = ""
  · subst h0
    simp
  · rw [if_neg h0]
    by_cases ht : s.data.countP pyIsAlpha = 0
    · simp [ht]
    · rw [if_pos (Nat.pos_of_ne_zero ht), if_neg ht]

/-- Claim C4 (confirmed): the classifier returns "hindi" exactly when the
ratio strictly exceeds 3/10, "english" exactly when the ratio is strictly
below 1/20, and "mixed" exactly in between (both boundary values
included); the empty string classifies as "english". -/
theorem guess_lang_thresholds :
    (∀ s : String,
      (guess_lang s = "hindi" ↔ script_ratio s > 3 / 10) ∧
      (guess_lang s = "english" ↔ script_ratio s < 1 / 20) ∧
      (guess_lang s = "mixed" ↔ 1 / 20 ≤ script_ratio s ∧ script_ratio s ≤ 3 / 10)) ∧
    guess_lang "" = "english" := by
  constructor
  · intro s
    simp only [guess_lang]
    split_ifs with h1 h2
    · exact ⟨⟨fun _ => h1, fun _ => rfl⟩,
        ⟨fun h => absurd h (by decide), fun h => absurd h (by linarith)⟩,
        ⟨fun h => absurd h (by decide), fun h => absurd h.2 (by linarith)⟩⟩
    · exact ⟨⟨fun h => absurd h (by decide), fun h => absurd h h1⟩,
        ⟨fun _ => h2, fun _ => rfl⟩,
        ⟨fun h => absurd h (by decide), fun h => absurd h.1 (by linarith)⟩⟩
    · exact ⟨⟨fun h => absurd h (by decide), fun h => absurd h h1⟩,
        ⟨fun h => absurd h (by decide), fun h => absurd h h2⟩,
        ⟨fun _ => ⟨not_lt.mp h2, not_lt.mp h1⟩, fun _ => rfl⟩⟩
  · simp only [guess_lang]
    rw [show script_ratio "" = 0 from rfl]
    norm_num

/-- Claim C5 (counterexample): a line whose tokens carry confidences -1 and
-2 gets confidence -1: Python `int()` truncates the mean -1.5 toward zero,
while the claimed floor would give -2. -/
theorem line_conf_truncates_cex :
    (group_words_to_lines [⟨1, "x", some (-1), 0, 0, 5, 5, 0, 0, 1⟩,
        ⟨1, "y", some (-2), 3, 0, 5, 5, 0, 0, 1⟩] (1 / 2)).map Line.conf = [some (-1)] ∧
    Int.fdiv (-3) 2 = -2 ∧
    ¬ (some (-1 : Int) = some (Int.fdiv (-3) 2)) := by
  refine ⟨by decide, by decide, by decide⟩

/-- Claim C5 (amended): on both reconstruction strategies, every produced
Text Line's confidence is the arithmetic mean of its constituent tokens'
non-null confidences truncated toward zero (Python `int()`), or absent
when no constituent token has a confidence.  For negative non-integer
means truncation differs from the claimed floor. -/
theorem line_conf_mean_trunc :
    ∀ (ws : List Token) (ytol : ℚ) (l : Line), l ∈ group_words_to_lines ws ytol →
      l.conf = (if (l.words.filterMap (fun w => w.conf)).isEmpty then none
        else some (Int.tdiv (l.words.filterMap (fun w => w.conf)).sum
          (l.words.filterMap (fun w => w.conf)).length)) := by
  intro ws ytol l hl
  unfold group_words_to_lines at hl
  by_cases h : has_line_num ws = true
  · rw [if_pos h] at hl
    unfold metaLines at hl
    obtain ⟨k, hk, rfl⟩ := List.mem_map.mp hl
    simp [mkLine, avgInts]
  · rw [if_neg h] at hl
    simp only [geomLines] at hl
    obtain ⟨g, hg, rfl⟩ := List.mem_map.mp hl
    simp [mkLine, avgInts]

/-- Witness for C5: a single-token line with confidence 5. -/
theorem line_conf_mean_trunc_witness :
    (mkLine [⟨1, "w", some 5, 0, 0, 2, 2, 0, 0, 1⟩]).conf =
      (if ((mkLine [⟨1, "w", some 5, 0, 0, 2, 2, 0, 0, 1⟩]).words.filterMap
            (fun w => w.conf)).isEmpty then none
        else some (Int.tdiv ((mkLine [⟨1, "w", some 5, 0, 0, 2, 2, 0, 0, 1⟩]).words.filterMap
            (fun w => w.conf)).sum
          ((mkLine [⟨1, "w", some 5, 0, 0, 2, 2, 0, 0, 1⟩]).words.filterMap
            (fun w => w.conf)).length)) :=
  line_conf_mean_trunc [⟨1, "w", some 5, 0, 0, 2, 2, 0, 0, 1⟩] (1 / 2)
    (mkLine [⟨1, "w", some 5, 0, 0, 2, 2, 0, 0, 1⟩]) (by decide)

/-- Claim C10 (confirmed): when any token on the page has a non-zero
`line_num`, metadata grouping applies to every token on the page, so any
two tokens with the same (block_num, par_num, line_num) key — including
tokens whose `line_num` is 0 — end up in the same Text Line, regardless of
their vertical positions. -/
theorem metadata_grouping_merges_same_key :
    ∀ (ws : List Token) (ytol : ℚ) (w1 w2 : Token),
      (∃ w ∈ ws, w.line_num ≠ 0) → w1 ∈ ws → w2 ∈ ws → lineKey w1 = lineKey w2 →
      ∃ l ∈ group_words_to_lines ws ytol, w1 ∈ l.words ∧ w2 ∈ l.words := by
  intro ws ytol w1 w2 hex h1 h2 hk
  have hln : has_line_num ws = true := by
    obtain ⟨w, hw, hw0⟩ := hex
    exact List.any_eq_true.mpr ⟨w, hw, by simpa using hw0⟩
  unfold group_words_to_lines
  rw [if_pos hln]
  unfold metaLines
  refine ⟨mkLine (ws.filter (fun w => lineKey w = lineKey w1)), ?_, ?_, ?_⟩
  · apply List.mem_map_of_mem
    have hmem : lineKey w1 ∈ (ws.map lineKey).dedup :=
      List.mem_dedup.mpr (List.mem_map_of_mem _ h1)
    exact ((List.perm_insertionSort keyLE _).mem_iff).mpr hmem
  · show w1 ∈ sortByLeft (ws.filter (fun w => lineKey w = lineKey w1))
    have hmem : w1 ∈ ws.filter (fun w => lineKey w = lineKey w1) :=
      List.mem_filter.mpr ⟨h1, by simp⟩
    exact ((List.perm_insertionSort _ _).mem_iff).mpr hmem
  · show w2 ∈ sortByLeft (ws.filter (fun w => lineKey w = lineKey w1))
    have hmem : w2 ∈ ws.filter (fun w => lineKey w = lineKey w1) :=
      List.mem_filter.mpr ⟨h2, by simp [← hk]⟩
    exact ((List.perm_insertionSort _ _).mem_iff).mpr hmem

/-- Witness for C10: two tokens with identical key (2,3,0) and tops 0 and
500 share a line because a third token carries `line_num = 1`. -/
theorem metadata_grouping_witness :
    ∃ l ∈ group_words_to_lines [⟨1, "a", none, 0, 0, 1, 1, 2, 3, 0⟩,
        ⟨1, "b", none, 0, 500, 1, 1, 2, 3, 0⟩, ⟨1, "c", none, 0, 5, 1, 1, 1, 1, 1⟩] (1 / 2),
      (⟨1, "a", none, 0, 0, 1, 1, 2, 3, 0⟩ : Token) ∈ l.words ∧
      (⟨1, "b", none, 0, 500, 1, 1, 2, 3, 0⟩ : Token) ∈ l.words :=
  metadata_grouping_merges_same_key _ (1 / 2) _ _
    ⟨⟨1, "c", none, 0, 5, 1, 1, 1, 1, 1⟩, by decide, by decide⟩ (by decide) (by decide) rfl

theorem collectNumbered_eq :
    ∀ (ls : List Line) (cur : Line),
      collectNumbered cur ls =
        ((chainPrefix cur ls).map mkBlockOf, ls.drop (chainPrefix cur ls).length) := by
  intro ls
  induction ls with
  | nil => intro cur; rfl
  | cons nxt rest ih =>
    intro cur
    simp only [collectNumbered, chainPrefix]
    split_ifs with hq hg1 hg2
    · simp
    · simp
    · rw [ih nxt]
      simp
    · simp
    · rw [ih nxt]
      simp

theorem collectNumbered_snd_le (cur : Line) (ls : List Line) :
    (collectNumbered cur ls).2.length ≤ ls.length := by
  rw [collectNumbered_eq]
  simp

theorem optionTail_snd_ge : ∀ (ls : List Line) (k : Nat), k ≤ (optionTail ls k).2 := by
  intro ls
  induction ls with
  | nil => intro k; simp [optionTail]
  | cons l r ih =>
    intro k
    simp only [optionTail]
    split_ifs with h
    · exact le_trans (Nat.le_succ k) (ih (k + 1))
    · simp

theorem collectUnnum_snd_ge : ∀ (ls : List Line) (k : Nat), k ≤ (collectUnnum ls k).2 := by
  intro ls
  induction ls with
  | nil => intro k; simp [collectUnnum]
  | cons l r ih =>
    intro k
    simp only [collectUnnum]
    split_ifs with h1 h2
    · exact le_trans (Nat.le_succ k) (optionTail_snd_ge r (k + 1))
    · exact le_trans (Nat.le_succ k) (ih (k + 1))
    · simp

theorem collectUnnum_snd_pos (l : Line) (r : List Line) :
    1 ≤ (collectUnnum (l :: r) 0).2 := by
  simp only [collectUnnum]
  split_ifs with h1 h2
  · exact optionTail_snd_ge r 1
  · exact collectUnnum_snd_ge r 1
  · omega

theorem collectUnnum_fst_cons (l : Line) (r : List Line) :
    (collectUnnum (l :: r) 0).1 ≠ [] := by
  simp only [collectUnnum]
  split_ifs with h1 h2 <;> simp_all

theorem drop_unnum_le (line : Line) (rest : List Line) :
    ((line :: rest).drop (collectUnnum (line :: rest) 0).2).length ≤ rest.length := by
  rw [List.length_drop]
  have h := collectUnnum_snd_pos line rest
  simp only [List.length_cons]
  omega

theorem segGo_congr : ∀ (f g : Nat) (ls : List Line), ls.length ≤ f → ls.length ≤ g →
    segGo f ls = segGo g ls := by
  intro f
  induction f with
  | zero =>
    intro g ls hf hg
    rw [show ls = [] from List.length_eq_zero.mp (Nat.le_zero.mp hf)]
    cases g <;> rfl
  | succ f ih =>
    intro g ls hf hg
    cases ls with
    | nil => cases g <;> rfl
    | cons line rest =>
      cases g with
      | zero => simp at hg
      | succ g' =>
        have hf' : rest.length ≤ f := by simpa [List.length_cons] using hf
        have hg' : rest.length ≤ g' := by simpa [List.length_cons] using hg
        simp only [segGo]
        rcases hd : detect_question_number line.text with ⟨q, rt⟩
        cases q with
        | some q =>
          simp only []
          congr 1
          exact ih g' _ (le_trans (collectNumbered_snd_le line rest) hf')
            (le_trans (collectNumbered_snd_le line rest) hg')
        | none =>
          simp only []
          split_ifs with hlen
          · congr 1
            exact ih g' _ (le_trans (drop_unnum_le line rest) hf')
              (le_trans (drop_unnum_le line rest) hg')
          · exact ih g' rest hf' hg'

theorem segGo_sound : ∀ (f : Nat) (ls : List Line), ls.length ≤ f →
    ∀ c ∈ segGo f ls, c.blocks ≠ [] ∧
      (c.qnum = none → (pyStrip (joinBlocks c.blocks)).length > 10) := by
  intro f
  induction f with
  | zero =>
    intro ls h c hc
    rw [show ls = [] from List.length_eq_zero.mp (Nat.le_zero.mp h)] at hc
    simp [segGo] at hc
  | succ f ih =>
    intro ls h c hc
    cases ls with
    | nil => simp [segGo] at hc
    | cons line rest =>
      have h' : rest.length ≤ f := by simpa [List.length_cons] using h
      simp only [segGo] at hc
      rcases hd : detect_question_number line.text with ⟨q, rt⟩
      rw [hd] at hc
      cases q with
      | some q =>
        simp only [] at hc
        rcases List.mem_cons.mp hc with rfl | hmem
        · exact ⟨by simp, fun hq => by simp at hq⟩
        · exact ih _ (le_trans (collectNumbered_snd_le line rest) h') c hmem
      | none =>
        simp only [] at hc
        split_ifs at hc with hlen
        · rcases List.mem_cons.mp hc with rfl | hmem
          · exact ⟨collectUnnum_fst_cons line rest, fun _ => hlen⟩
          · exact ih _ (le_trans (drop_unnum_le line rest) h') c hmem
        · exact ih rest h' c hc

/-- Claim C6 (confirmed): every emitted Candidate has at least one Block;
every unnumbered Candidate's space-joined, trimmed block text is strictly
longer than 10 characters; and when an accumulated unnumbered chunk fails
the threshold nothing is emitted for it and segmentation resumes from the
following line (the scan advances by exactly one). -/
theorem segmenter_min_length_invariant :
    ∀ ls : List Line,
      (∀ c ∈ group_lines_to_candidates ls, c.blocks ≠ [] ∧
        (c.qnum = none → (pyStrip (joinBlocks c.blocks)).length > 10)) ∧
      (∀ (l : Line) (rest : List Line), ls = l :: rest →
        (detect_question_number l.text).1 = none →
        ¬ (pyStrip (joinBlocks (collectUnnum ls 0).1)).length > 10 →
        group_lines_to_candidates ls = group_lines_to_candidates rest) := by
  intro ls
  constructor
  · exact fun c hc => segGo_sound ls.length ls le_rfl c hc
  · rintro l rest rfl hq hshort
    unfold group_lines_to_candidates
    simp only [List.length_cons, segGo]
    rcases hd : detect_question_number l.text with ⟨q, rt⟩
    rw [hd] at hq
    simp only [] at hq
    subst hq
    simp only []
    rw [if_neg hshort]

/-- Witness for C6: a long unnumbered line produces a Candidate satisfying
both invariants, and a short unnumbered line produces nothing — its page
segments exactly as if the line were removed. -/
theorem segmenter_min_length_witness :
    (((⟨none, [mkBlockOf ⟨"hello wonderful world", 0, 0, 50, 10, some 80, []⟩],
        avg_conf_blocks [mkBlockOf ⟨"hello wonderful world", 0, 0, 50, 10, some 80, []⟩]⟩ :
          Candidate).blocks ≠ []) ∧
      ((⟨none, [mkBlockOf ⟨"hello wonderful world", 0, 0, 50, 10, some 80, []⟩],
        avg_conf_blocks [mkBlockOf ⟨"hello wonderful world", 0, 0, 50, 10, some 80, []⟩]⟩ :
          Candidate).qnum = none →
        (pyStrip (joinBlocks (⟨none,
          [mkBlockOf ⟨"hello wonderful world", 0, 0, 50, 10, some 80, []⟩],
          avg_conf_blocks [mkBlockOf ⟨"hello wonderful world", 0, 0, 50, 10, some 80, []⟩]⟩ :
            Candidate).blocks)).length > 10)) ∧
    group_lines_to_candidates [⟨"hi", 0, 0, 5, 10, none, []⟩] = group_lines_to_candidates [] :=
  ⟨(segmenter_min_length_invariant [⟨"hello wonderful world", 0, 0, 50, 10, some 80, []⟩]).1 _
      (List.mem_cons_self _ _),
   (segmenter_min_length_invariant [⟨"hi", 0, 0, 5, 10, none, []⟩]).2
      ⟨"hi", 0, 0, 5, 10, none, []⟩ [] rfl (by decide) (by decide)⟩

/-- Claim C9 (confirmed): a line matching the numbered-question pattern at
the current scan position always opens and emits a Candidate carrying that
question number, with at least one Block, with no minimum on its text
length — the 10-character threshold applies only to unnumbered chunks. -/
theorem numbered_line_always_emits :
    ∀ (l : Line) (ls : List Line) (q rt : String),
      detect_question_number l.text = (some q, rt) →
      ∃ c, (group_lines_to_candidates (l :: ls)).head? = some c ∧
        c.qnum = some q ∧ c.blocks ≠ [] := by
  intro l ls q rt hd
  unfold group_lines_to_candidates
  simp only [List.length_cons, segGo, hd]
  exact ⟨_, rfl, rfl, by simp⟩

/-- Witness for C9: the line "42" — only digits, remainder empty, total
text far below 10 characters — still yields a numbered Candidate. -/
theorem numbered_line_always_emits_witness :
    (∃ c, (group_lines_to_candidates [⟨"42", 0, 0, 5, 10, none, []⟩]).head? = some c ∧
      c.qnum = some "42" ∧ c.blocks ≠ []) ∧
    (pyStrip "42").length ≤ 10 :=
  ⟨numbered_line_always_emits ⟨"42", 0, 0, 5, 10, none, []⟩ [] "42" "" (by decide), by decide⟩

/-- Claim C7 (counterexample): the code replaces only a ZERO height by 1
(`or 1`); a negative height is used as-is.  With a numbered line of height
-1 (top 10, bottom 9) and a next line at top 9, the gap 0 exceeds
(-1)*6 = -6, so the code stops and the candidate keeps a single block —
while the claim ("non-positive height treated as 1") predicts 0 ≤ 6*1 and
hence a consumed second block. -/
theorem numbered_gap_negative_height_cex :
    (group_lines_to_candidates [⟨"1.", 0, 10, 5, 9, none, []⟩,
        ⟨"hello wonderful world", 0, 9, 50, 19, none, []⟩]).map
      (fun c => c.blocks.length) = [1, 1] ∧
    ((9 : Int) - 9 > (-1) * 6) ∧
    ¬ ((9 : Int) - 9 > 1 * 6) := by
  refine ⟨by decide, by decide, by decide⟩

/-- Claim C7 (amended): when a line matches the numbered-question pattern,
the segmenter emits a Candidate with that number whose first Block holds
the remainder (or the full line text when the remainder is empty) and
whose further Blocks are exactly the maximal chain of subsequent lines
each of which neither matches a question number nor sits below a gap
strictly exceeding 6 times the previously consumed line's height — a ZERO
height being treated as 1, a negative height used as-is; the first line
violating this is not consumed and segmentation continues from it. -/
theorem numbered_chain_characterization :
    ∀ (l : Line) (ls : List Line) (q rt : String),
      detect_question_number l.text = (some q, rt) →
      group_lines_to_candidates (l :: ls) =
        (⟨some q,
          (⟨guess_lang l.text, if rt = "" then l.text else rt, lineBBox l, l.conf⟩ : Block) ::
            (chainPrefix l ls).map mkBlockOf,
          avg_conf_blocks
            ((⟨guess_lang l.text, if rt = "" then l.text else rt, lineBBox l, l.conf⟩ : Block) ::
              (chainPrefix l ls).map mkBlockOf)⟩ : Candidate) ::
          group_lines_to_candidates (ls.drop (chainPrefix l ls).length) := by
  intro l ls q rt hd
  unfold group_lines_to_candidates
  simp only [List.length_cons, segGo, hd, collectNumbered_eq]
  congr 1
  exact segGo_congr ls.length (ls.drop (chainPrefix l ls).length).length _ (by simp) le_rfl

/-- Witness for C7: "1) hello" followed by a nearby "world" line — the
chain absorbs the second line, giving one Candidate with two Blocks. -/
theorem numbered_chain_witness :
    (group_lines_to_candidates [wline71, wline72] =
      (⟨some "1",
        (⟨guess_lang wline71.text, if "hello" = "" then wline71.text else "hello",
          lineBBox wline71, wline71.conf⟩ : Block) ::
          (chainPrefix wline71 [wline72]).map mkBlockOf,
        avg_conf_blocks
          ((⟨guess_lang wline71.text, if "hello" = "" then wline71.text else "hello",
            lineBBox wline71, wline71.conf⟩ : Block) ::
            (chainPrefix wline71 [wline72]).map mkBlockOf)⟩ : Candidate) ::
        group_lines_to_candidates ([wline72].drop (chainPrefix wline71 [wline72]).length)) ∧
    (group_lines_to_candidates [wline71, wline72]).map (fun c => (c.qnum, c.blocks.length)) =
      [(some "1", 2)] :=
  ⟨numbered_chain_characterization wline71 [wline72] "1" "hello" (by decide), by decide⟩
